import Mathlib

/-!
Verification of the CHIP-8 interpreter in `src/main.rs` (sebver/chip8-rs).

The emulator core is embedded shallowly: the Rust `Emulator` struct becomes a
Lean structure; fixed-size arrays (`[u8; 4096]`, `[[bool; 64]; 32]`,
`[u8; 16]`) are modelled as total functions together with the explicit bounds
checks Rust performs at every indexing site (a Rust index-out-of-bounds panic
becomes an `Except` error); `u8` arithmetic is modelled on `Nat` with explicit
`% 256` where the Rust types wrap.  The external random-byte source consumed
by the `Cxnn` opcode (`rand::random::<u8>()`) is passed in as an explicit
argument.
-/

namespace Chip8

/-- Screen width in pixels (`const WIDTH: usize = 64`). -/
abbrev WIDTH : Nat := 64

/-- Screen height in pixels (`const HEIGHT: usize = 32`). -/
abbrev HEIGHT : Nat := 32

/-- Errors that abort the emulated run.  In the Rust source each of these is a
panic: `todo!("{:>4X?}", op)` for an unmatched opcode (it formats only the
16-bit opcode value), `self.stack.pop().unwrap()` on an empty call stack, and
the implicit bounds check of every array indexing operation. -/
inductive EmuError where
  | unsupportedOpcode (op : Nat)
  | stackUnderflow
  | indexOutOfBounds

/-- The machine state, mirroring `struct Emulator` field by field.
`memory : [u8; 4096]`, `pc : usize`, `display : [[bool; WIDTH]; HEIGHT]`
(addressed `display row col`), `index_register : usize`,
`var_registers : [u8; 16]`, `stack : Vec<usize>` (head of the list is the top
of the Vec-based stack). -/
structure Emulator where
  memory : Nat → Nat
  pc : Nat
  display : Nat → Nat → Bool
  index_register : Nat
  var_registers : Nat → Nat
  stack : List Nat

/-- `Emulator::new()`: zero memory and registers, `pc = 0x200`, dark display,
empty stack. -/
def Emulator.new : Emulator :=
  { memory := fun _ => 0
    pc := 0x200
    display := fun _ _ => false
    index_register := 0
    var_registers := fun _ => 0
    stack := [] }

/-- Read `self.memory[a]`; a Rust array access panics when `a ≥ 4096`. -/
def readMem (e : Emulator) (a : Nat) : Except EmuError Nat :=
  if a < 4096 then .ok (e.memory a) else .error .indexOutOfBounds

/-- Write `self.memory[a] = b`; panics when `a ≥ 4096`. -/
def writeMem (e : Emulator) (a b : Nat) : Except EmuError Emulator :=
  if a < 4096 then
    .ok { e with memory := fun j => if j = a then b else e.memory j }
  else .error .indexOutOfBounds

/-- Write `self.var_registers[i] = v`.  Every register index appearing in the
source is a nibble (or the literal `0xF`), hence `< 16`, so the Rust bounds
check never fires and is not modelled. -/
def setReg (e : Emulator) (i v : Nat) : Emulator :=
  { e with var_registers := fun j => if j = i then v else e.var_registers j }

/-- The loop body of `Emulator::load_rom`: write byte `b` at `0x200 + i` for
each `(i, b)` produced by `rom.into_iter().enumerate()`. -/
def load_rom_aux : Emulator → Nat → List Nat → Except EmuError Emulator
  | e, _, [] => .ok e
  | e, i, b :: rest => do
      let e2 ← writeMem e (0x200 + i) b
      load_rom_aux e2 (i + 1) rest

/-- `Emulator::load_rom`: copy the ROM bytes into memory starting at `0x200`. -/
def load_rom (e : Emulator) (rom : List Nat) : Except EmuError Emulator :=
  load_rom_aux e 0 rom

/-- The sprite bit used for column offset `j`:
`1 & (sprite >> (7 - j)) == 1` (most-significant bit first). -/
def bitAt (sprite j : Nat) : Bool :=
  decide ((sprite >>> (7 - j)) % 2 = 1)

/-- One iteration of the inner column loop of `Emulator::draw`, acting on the
running pair (state, `changed`).  `col = coord_x + j` and `sb` is the sprite
bit.  Mirrors:
if `col < WIDTH` then index `display[row][col]` (panic when `row ≥ HEIGHT`),
and when the sprite bit differs from the pixel, flip the pixel, set `changed`,
and set `var_registers[0xF] = 1` when the flipped pixel is now dark (i.e. the
pixel was previously lit). -/
def drawStep (er : Emulator × Bool) (row col : Nat) (sb : Bool) :
    Except EmuError (Emulator × Bool) :=
  if col < WIDTH then
    if row < HEIGHT then
      if sb = er.1.display row col then .ok er
      else
        .ok ({ er.1 with
                display := fun r c =>
                  if r = row ∧ c = col then !(er.1.display row col)
                  else er.1.display r c
                var_registers :=
                  if er.1.display row col = true then
                    fun j => if j = 0xF then 1 else er.1.var_registers j
                  else er.1.var_registers }, true)
    else .error .indexOutOfBounds
  else .ok er

/-- The inner loop of `Emulator::draw` over the column offsets `js`
(`for (j, col) in (coord_x..coord_x + 8).enumerate()`). -/
def drawCols (row coordX sprite : Nat) :
    List Nat → Emulator × Bool → Except EmuError (Emulator × Bool)
  | [], er => .ok er
  | j :: js, er => do
      let er2 ← drawStep er row (coordX + j) (bitAt sprite j)
      drawCols row coordX sprite js er2

/-- The outer loop of `Emulator::draw` over the row offsets `is`
(`for (i, row) in (coord_y..coord_y + height).enumerate()`): fetch the sprite
byte `self.memory[self.index_register + i]`, then run the column loop at row
`coord_y + i`. -/
def drawRows (coordX coordY : Nat) :
    List Nat → Emulator × Bool → Except EmuError (Emulator × Bool)
  | [], er => .ok er
  | i :: is, er => do
      let sprite ← readMem er.1 (er.1.index_register + i)
      let er2 ← drawCols (coordY + i) coordX sprite (List.range 8) er
      drawRows coordX coordY is er2

/-- `Emulator::draw`: the starting coordinate is
`(var_registers[x] % WIDTH, var_registers[y] % HEIGHT)`; `changed` starts
false; then the nested row/column loops run.  Returns the final state paired
with the `changed` flag. -/
def draw (e : Emulator) (x y height : Nat) :
    Except EmuError (Emulator × Bool) :=
  let coordX := e.var_registers x % WIDTH
  let coordY := e.var_registers y % HEIGHT
  drawRows coordX coordY (List.range height) (e, false)

/-- `Emulator::execute`: decode the four nibbles of `op` and dispatch.  The
Rust `match` on the nibble 4-tuple is rendered as a first-match `if` chain
with one branch per match arm, in source order, ending in the `todo!` arm.
`rnd` stands for the externally produced random byte of `rand::random::<u8>()`
(taken `% 256`), consumed only by the `Cxnn` arm. -/
def execute (e : Emulator) (op rnd : Nat) : Except EmuError (Emulator × Bool) :=
  let n3 := op / 4096 % 16
  let n2 := op / 256 % 16
  let n1 := op / 16 % 16
  let n0 := op % 16
  let nnn := op % 4096
  let nn := op % 256
  let n := n0
  let x := n2
  let y := n1
  if n3 = 0x0 ∧ n2 = 0x0 ∧ n1 = 0xE ∧ n0 = 0x0 then
    .ok ({ e with display := fun _ _ => false }, true)
  else if n3 = 0x0 ∧ n2 = 0x0 ∧ n1 = 0xE ∧ n0 = 0xE then
    match e.stack with
    | [] => .error .stackUnderflow
    | a :: rest => .ok ({ e with pc := a, stack := rest }, false)
  else if n3 = 0x1 then
    .ok ({ e with pc := nnn }, false)
  else if n3 = 0x2 then
    .ok ({ e with stack := e.pc :: e.stack, pc := nnn }, false)
  else if n3 = 0x3 then
    .ok ({ e with pc := e.pc + (if e.var_registers x = nn then 2 else 0) }, false)
  else if n3 = 0x4 then
    .ok ({ e with pc := e.pc + (if e.var_registers x ≠ nn then 2 else 0) }, false)
  else if n3 = 0x6 then
    .ok (setReg e x nn, false)
  else if n3 = 0x7 then
    .ok (setReg e x ((e.var_registers x + nn) % 256), false)
  else if n3 = 0x8 ∧ n0 = 0x0 then
    .ok (setReg e x (e.var_registers y), false)
  else if n3 = 0x8 ∧ n0 = 0x7 then
    .ok (setReg (setReg e x ((e.var_registers y + 256 - e.var_registers x) % 256))
          0xF (if e.var_registers x > e.var_registers y then 0 else 1), false)
  else if n3 = 0xA then
    .ok ({ e with index_register := nnn }, false)
  else if n3 = 0xC then
    .ok (setReg e x (Nat.land (rnd % 256) nn), false)
  else if n3 = 0xD then
    draw e x y n
  else
    .error (.unsupportedOpcode op)

/-- `Emulator::execute_current`: fetch the big-endian 16-bit instruction at
`pc` (`(memory[pc] as u16) << 8 | memory[pc + 1] as u16`; for the byte values
held in memory this is `hi * 256 + lo`), advance `pc` by 2, then execute. -/
def execute_current (e : Emulator) (rnd : Nat) :
    Except EmuError (Emulator × Bool) := do
  let hi ← readMem e e.pc
  let lo ← readMem e (e.pc + 1)
  execute { e with pc := e.pc + 2 } (hi * 256 + lo) rnd

/-- True exactly when `op` falls into one of the implemented arms of the
`match` in `Emulator::execute`; the `todo!` arm corresponds to `false`.  The
branch conditions are literally those of `execute`. -/
def matchesImplemented (op : Nat) : Bool :=
  let n3 := op / 4096 % 16
  let n2 := op / 256 % 16
  let n1 := op / 16 % 16
  let n0 := op % 16
  if n3 = 0x0 ∧ n2 = 0x0 ∧ n1 = 0xE ∧ n0 = 0x0 then true
  else if n3 = 0x0 ∧ n2 = 0x0 ∧ n1 = 0xE ∧ n0 = 0xE then true
  else if n3 = 0x1 then true
  else if n3 = 0x2 then true
  else if n3 = 0x3 then true
  else if n3 = 0x4 then true
  else if n3 = 0x6 then true
  else if n3 = 0x7 then true
  else if n3 = 0x8 ∧ n0 = 0x0 then true
  else if n3 = 0x8 ∧ n0 = 0x7 then true
  else if n3 = 0xA then true
  else if n3 = 0xC then true
  else if n3 = 0xD then true
  else false

/-- Collision predicate of a whole draw call, phrased over the state *before*
the call: some addressed pixel (in-bounds column) is lit while the
corresponding sprite bit is clear, so the loop body flips it off and sets the
flag register.  Each screen cell is addressed at most once per call, so the
pre-call display determines every per-step collision test. -/
def collisionB (e : Emulator) (x y h : Nat) : Bool :=
  let coordX := e.var_registers x % WIDTH
  let coordY := e.var_registers y % HEIGHT
  (List.range h).any fun i =>
    (List.range 8).any fun j =>
      decide (coordX + j < WIDTH) &&
        e.display (coordY + i) (coordX + j) &&
        !(bitAt (e.memory (e.index_register + i)) j)

/-! ### Helper lemmas about the draw loops and the execute dispatch -/

lemma drawStep_ok_frame {er er' : Emulator × Bool} {row col : Nat} {sb : Bool}
    (hok : drawStep er row col sb = .ok er') :
    er'.1.memory = er.1.memory ∧
    er'.1.index_register = er.1.index_register ∧
    (∀ r c, (r ≠ row ∨ c ≠ col) → er'.1.display r c = er.1.display r c) ∧
    (∀ i, i ≠ 0xF → er'.1.var_registers i = er.1.var_registers i) := by
  by_cases h1 : col < WIDTH
  · by_cases h2 : row < HEIGHT
    · by_cases h3 : sb = er.1.display row col
      · simp only [drawStep, if_pos h1, if_pos h2, if_pos h3, Except.ok.injEq] at hok
        subst hok
        exact ⟨rfl, rfl, fun r c _ => rfl, fun i _ => rfl⟩
      · simp only [drawStep, if_pos h1, if_pos h2, if_neg h3, Except.ok.injEq] at hok
        subst hok
        refine ⟨rfl, rfl, ?_, ?_⟩
        · intro r c hrc
          rcases hrc with h | h <;> simp [h]
        · intro i hi
          simp only
          split_ifs with hd
          · simp [hi]
          · rfl
    · simp [drawStep, h1, h2] at hok
  · simp only [drawStep, if_neg h1, Except.ok.injEq] at hok
    subst hok
    exact ⟨rfl, rfl, fun r c _ => rfl, fun i _ => rfl⟩

lemma drawStep_flag {er er' : Emulator × Bool} {row col : Nat} {sb : Bool}
    (hok : drawStep er row col sb = .ok er') :
    er'.1.var_registers 0xF =
      if (decide (col < WIDTH) && er.1.display row col && !sb) = true then 1
      else er.1.var_registers 0xF := by
  by_cases h1 : col < WIDTH
  · by_cases h2 : row < HEIGHT
    · by_cases h3 : sb = er.1.display row col
      · simp only [drawStep, if_pos h1, if_pos h2, if_pos h3, Except.ok.injEq] at hok
        subst hok
        subst h3
        cases h : er.1.display row col <;> simp [h]
      · simp only [drawStep, if_pos h1, if_pos h2, if_neg h3, Except.ok.injEq] at hok
        subst hok
        cases h : er.1.display row col
        · rw [h] at h3
          simp [h, h1]
        · rw [h] at h3
          have hsb : sb = false := by
            cases sb
            · rfl
            · exact absurd rfl h3
          simp [h, h1, hsb]
    · simp [drawStep, h1, h2] at hok
  · simp only [drawStep, if_neg h1, Except.ok.injEq] at hok
    subst hok
    simp [h1]

lemma drawStep_ok_of_lt {er : Emulator × Bool} {row col : Nat} {sb : Bool}
    (hrow : row < HEIGHT) : ∃ er', drawStep er row col sb = .ok er' := by
  unfold drawStep
  split_ifs <;> exact ⟨_, rfl⟩

lemma drawStep_err_of_ge {er : Emulator × Bool} {row col : Nat} {sb : Bool}
    (hcol : col < WIDTH) (hrow : ¬ row < HEIGHT) :
    drawStep er row col sb = .error .indexOutOfBounds := by
  unfold drawStep
  rw [if_pos hcol, if_neg hrow]

lemma exbind_ok {α β : Type} (a : α) (f : α → Except EmuError β) :
    (Except.ok a >>= f) = f a := rfl

lemma exbind_err {α β : Type} (e : EmuError) (f : α → Except EmuError β) :
    ((Except.error e : Except EmuError α) >>= f) = .error e := rfl

lemma exceptBind_ok {α β : Type} {x : Except EmuError α}
    {f : α → Except EmuError β} {b : β}
    (h : (x >>= f) = .ok b) : ∃ a, x = .ok a ∧ f a = .ok b := by
  cases x with
  | error e => rw [exbind_err] at h; exact absurd h (by simp)
  | ok a => exact ⟨a, rfl, by rwa [exbind_ok] at h⟩

lemma listAny_congr {l : List Nat} {f g : Nat → Bool}
    (h : ∀ x ∈ l, f x = g x) : l.any f = l.any g := by
  induction l with
  | nil => rfl
  | cons a l ih =>
      simp only [List.any_cons]
      rw [h a (List.mem_cons_self a l), ih fun x hx => h x (List.mem_cons_of_mem a hx)]

lemma drawCols_ok_frame {js : List Nat} :
    ∀ {er er' : Emulator × Bool} {row cx sprite : Nat},
    drawCols row cx sprite js er = .ok er' →
    er'.1.memory = er.1.memory ∧
    er'.1.index_register = er.1.index_register ∧
    (∀ r c, (r ≠ row ∨ (∀ j ∈ js, c ≠ cx + j)) → er'.1.display r c = er.1.display r c) ∧
    (∀ i, i ≠ 0xF → er'.1.var_registers i = er.1.var_registers i) := by
  induction js with
  | nil =>
      intro er er' row cx sprite hok
      simp only [drawCols, Except.ok.injEq] at hok
      subst hok
      exact ⟨rfl, rfl, fun r c _ => rfl, fun i _ => rfl⟩
  | cons j js ih =>
      intro er er' row cx sprite hok
      simp only [drawCols] at hok
      obtain ⟨mid, hstep, hrest⟩ := exceptBind_ok hok
      obtain ⟨m1, m2, m3, m4⟩ := drawStep_ok_frame hstep
      obtain ⟨r1, r2, r3, r4⟩ := ih hrest
      refine ⟨r1.trans m1, r2.trans m2, ?_, fun i hi => (r4 i hi).trans (m4 i hi)⟩
      intro r c hrc
      rcases hrc with h | h
      · exact (r3 r c (Or.inl h)).trans (m3 r c (Or.inl h))
      · refine (r3 r c (Or.inr fun j' hj' => h j' (List.mem_cons_of_mem j hj'))).trans
          (m3 r c (Or.inr (h j (List.mem_cons_self j js))))

lemma drawCols_flag {js : List Nat} (hnd : js.Nodup) :
    ∀ {er er' : Emulator × Bool} {row cx sprite : Nat},
    drawCols row cx sprite js er = .ok er' →
    er'.1.var_registers 0xF =
      if (js.any fun j => decide (cx + j < WIDTH) &&
            er.1.display row (cx + j) && !(bitAt sprite j)) = true
      then 1 else er.1.var_registers 0xF := by
  induction js with
  | nil =>
      intro er er' row cx sprite hok
      simp only [drawCols, Except.ok.injEq] at hok
      subst hok
      simp
  | cons j js ih =>
      intro er er' row cx sprite hok
      simp only [drawCols] at hok
      obtain ⟨mid, hstep, hrest⟩ := exceptBind_ok hok
      rw [List.nodup_cons] at hnd
      obtain ⟨hj, hnd'⟩ := hnd
      obtain ⟨-, -, m3, -⟩ := drawStep_ok_frame hstep
      have hflag := drawStep_flag hstep
      have hrec := ih hnd' hrest
      have hsame :
          (js.any fun j' => decide (cx + j' < WIDTH) &&
              mid.1.display row (cx + j') && !(bitAt sprite j')) =
          (js.any fun j' => decide (cx + j' < WIDTH) &&
              er.1.display row (cx + j') && !(bitAt sprite j')) := by
        refine listAny_congr fun j' hj' => ?_
        have hne : cx + j' ≠ cx + j := by
          intro he
          have hjj : j' = j := by omega
          subst hjj
          exact hj hj'
        rw [m3 row (cx + j') (Or.inr hne)]
      rw [hrec, hsame, hflag, List.any_cons]
      cases hC : (decide (cx + j < WIDTH) && er.1.display row (cx + j) && !(bitAt sprite j)) <;>
        cases hA : (js.any fun j' => decide (cx + j' < WIDTH) &&
            er.1.display row (cx + j') && !(bitAt sprite j')) <;>
      simp [hC, hA]

lemma drawCols_ok_of_lt {js : List Nat} :
    ∀ {er : Emulator × Bool} {row cx sprite : Nat}, row < HEIGHT →
    ∃ er', drawCols row cx sprite js er = .ok er' := by
  induction js with
  | nil => intro er row cx sprite _; exact ⟨er, rfl⟩
  | cons j js ih =>
      intro er row cx sprite hrow
      obtain ⟨mid, hm⟩ := @drawStep_ok_of_lt er row (cx + j) (bitAt sprite j) hrow
      obtain ⟨er', hrest⟩ := @ih mid row cx sprite hrow
      exact ⟨er', by simp only [drawCols]; rw [hm, exbind_ok]; exact hrest⟩

lemma drawCols_err_of_ge {er : Emulator × Bool} {row cx sprite : Nat}
    (hcx : cx < WIDTH) (hrow : ¬ row < HEIGHT) :
    drawCols row cx sprite (List.range 8) er = .error .indexOutOfBounds := by
  have h8 : List.range 8 = 0 :: [1, 2, 3, 4, 5, 6, 7] := by rfl
  rw [h8]
  simp only [drawCols]
  rw [Nat.add_zero, drawStep_err_of_ge hcx hrow, exbind_err]

lemma drawRows_ok_frame {is : List Nat} :
    ∀ {er er' : Emulator × Bool} {cx cy : Nat},
    drawRows cx cy is er = .ok er' →
    er'.1.memory = er.1.memory ∧
    er'.1.index_register = er.1.index_register ∧
    (∀ r c, ((∀ i ∈ is, r ≠ cy + i) ∨ (∀ j ∈ List.range 8, c ≠ cx + j)) →
      er'.1.display r c = er.1.display r c) ∧
    (∀ i, i ≠ 0xF → er'.1.var_registers i = er.1.var_registers i) := by
  induction is with
  | nil =>
      intro er er' cx cy hok
      simp only [drawRows, Except.ok.injEq] at hok
      subst hok
      exact ⟨rfl, rfl, fun r c _ => rfl, fun i _ => rfl⟩
  | cons i is ih =>
      intro er er' cx cy hok
      simp only [drawRows] at hok
      obtain ⟨sprite, hsp, hok⟩ := exceptBind_ok hok
      obtain ⟨mid, hcols, hrest⟩ := exceptBind_ok hok
      obtain ⟨m1, m2, m3, m4⟩ := drawCols_ok_frame hcols
      obtain ⟨r1, r2, r3, r4⟩ := ih hrest
      refine ⟨r1.trans m1, r2.trans m2, ?_, fun k hk => (r4 k hk).trans (m4 k hk)⟩
      intro r c hrc
      rcases hrc with h | h
      · refine (r3 r c (Or.inl fun i' hi' => h i' (List.mem_cons_of_mem i hi'))).trans
          (m3 r c (Or.inl (h i (List.mem_cons_self i is))))
      · exact (r3 r c (Or.inr h)).trans (m3 r c (Or.inr h))

lemma readMem_ok {e : Emulator} {a v : Nat} (h : readMem e a = .ok v) :
    v = e.memory a ∧ a < 4096 := by
  unfold readMem at h
  split_ifs at h with hb
  · simp only [Except.ok.injEq] at h
    exact ⟨h.symm, hb⟩

lemma drawRows_flag {is : List Nat} (hnd : is.Nodup) :
    ∀ {er er' : Emulator × Bool} {cx cy : Nat},
    drawRows cx cy is er = .ok er' →
    er'.1.var_registers 0xF =
      if (is.any fun i => (List.range 8).any fun j =>
            decide (cx + j < WIDTH) && er.1.display (cy + i) (cx + j) &&
              !(bitAt (er.1.memory (er.1.index_register + i)) j)) = true
      then 1 else er.1.var_registers 0xF := by
  induction is with
  | nil =>
      intro er er' cx cy hok
      simp only [drawRows, Except.ok.injEq] at hok
      subst hok
      simp
  | cons i is ih =>
      intro er er' cx cy hok
      simp only [drawRows] at hok
      obtain ⟨sprite, hsp, hok⟩ := exceptBind_ok hok
      obtain ⟨mid, hcols, hrest⟩ := exceptBind_ok hok
      obtain ⟨hspv, -⟩ := readMem_ok hsp
      subst hspv
      rw [List.nodup_cons] at hnd
      obtain ⟨hi, hnd'⟩ := hnd
      obtain ⟨m1, m2, m3, -⟩ := drawCols_ok_frame hcols
      have hflag := drawCols_flag (List.nodup_range 8) hcols
      have hrec := ih hnd' hrest
      have hsame :
          (is.any fun i' => (List.range 8).any fun j =>
              decide (cx + j < WIDTH) && mid.1.display (cy + i') (cx + j) &&
                !(bitAt (mid.1.memory (mid.1.index_register + i')) j)) =
          (is.any fun i' => (List.range 8).any fun j =>
              decide (cx + j < WIDTH) && er.1.display (cy + i') (cx + j) &&
                !(bitAt (er.1.memory (er.1.index_register + i')) j)) := by
        refine listAny_congr fun i' hi' => ?_
        refine listAny_congr fun j hj => ?_
        have hne : cy + i' ≠ cy + i := by
          intro he
          have hii : i' = i := by omega
          subst hii
          exact hi hi'
        rw [m1, m2, m3 (cy + i') (cx + j) (Or.inl hne)]
      rw [hrec, hsame, hflag, List.any_cons]
      cases hC : ((List.range 8).any fun j =>
          decide (cx + j < WIDTH) && er.1.display (cy + i) (cx + j) &&
            !(bitAt (er.1.memory (er.1.index_register + i)) j)) <;>
        cases hA : (is.any fun i' => (List.range 8).any fun j =>
            decide (cx + j < WIDTH) && er.1.display (cy + i') (cx + j) &&
              !(bitAt (er.1.memory (er.1.index_register + i')) j)) <;>
      simp [hC, hA]

lemma drawRows_ok_iff {is : List Nat} :
    ∀ {er : Emulator × Bool} {cx cy : Nat}, cx < WIDTH →
    ((∃ er', drawRows cx cy is er = .ok er') ↔
      ∀ i ∈ is, er.1.index_register + i < 4096 ∧ cy + i < HEIGHT) := by
  induction is with
  | nil =>
      intro er cx cy _
      simp only [drawRows, List.not_mem_nil]
      constructor
      · intro _ i hi
        exact absurd hi (by simp)
      · intro _
        exact ⟨er, rfl⟩
  | cons i is ih =>
      intro er cx cy hcx
      by_cases hm : er.1.index_register + i < 4096
      · have hsp : readMem er.1 (er.1.index_register + i) =
            .ok (er.1.memory (er.1.index_register + i)) := by
          simp [readMem, hm]
        by_cases hrow : cy + i < HEIGHT
        · obtain ⟨mid, hcols⟩ := @drawCols_ok_of_lt (List.range 8) er (cy + i)
            cx (er.1.memory (er.1.index_register + i)) hrow
          have hmid_ir : mid.1.index_register = er.1.index_register :=
            (drawCols_ok_frame hcols).2.1
          simp only [drawRows]
          rw [hsp, exbind_ok, hcols, exbind_ok]
          rw [@ih mid cx cy hcx]
          simp only [List.forall_mem_cons, hmid_ir]
          simp [hm, hrow]
        · simp only [drawRows]
          rw [hsp, exbind_ok, drawCols_err_of_ge hcx hrow, exbind_err]
          simp only [List.forall_mem_cons]
          constructor
          · intro ⟨er', h⟩
            exact absurd h (by simp)
          · intro ⟨h1, _⟩
            exact absurd h1.2 hrow
      · have hsp : readMem er.1 (er.1.index_register + i) =
            .error .indexOutOfBounds := by
          simp [readMem, hm]
        simp only [drawRows]
        rw [hsp, exbind_err]
        simp only [List.forall_mem_cons]
        constructor
        · intro ⟨er', h⟩
          exact absurd h (by simp)
        · intro ⟨h1, _⟩
          exact absurd h1.1 hm

lemma draw_flag {e e' : Emulator} {x y h : Nat} {ch : Bool}
    (hok : draw e x y h = .ok (e', ch)) :
    e'.var_registers 0xF =
      if collisionB e x y h = true then 1 else e.var_registers 0xF := by
  simp only [draw] at hok
  have hres := drawRows_flag (List.nodup_range h) hok
  simpa [collisionB] using hres

lemma draw_ok_iff {e : Emulator} {x y h : Nat} :
    (∃ r, draw e x y h = .ok r) ↔
    ∀ i < h, e.index_register + i < 4096 ∧
      e.var_registers y % HEIGHT + i < HEIGHT := by
  have hcx : e.var_registers x % WIDTH < WIDTH := Nat.mod_lt _ (by norm_num)
  simp only [draw]
  rw [drawRows_ok_iff hcx]
  simp [List.mem_range]

lemma draw_frame {e e' : Emulator} {x y h : Nat} {ch : Bool}
    (hok : draw e x y h = .ok (e', ch)) :
    e'.memory = e.memory ∧ e'.index_register = e.index_register ∧
    (∀ r c, ((∀ i < h, r ≠ e.var_registers y % HEIGHT + i) ∨
             (∀ j < 8, c ≠ e.var_registers x % WIDTH + j)) →
      e'.display r c = e.display r c) ∧
    (∀ i, i ≠ 0xF → e'.var_registers i = e.var_registers i) := by
  simp only [draw] at hok
  obtain ⟨m1, m2, m3, m4⟩ := drawRows_ok_frame hok
  refine ⟨m1, m2, ?_, m4⟩
  intro r c hrc
  refine m3 r c ?_
  rcases hrc with hr | hc
  · exact Or.inl fun i hi => hr i (List.mem_range.mp hi)
  · exact Or.inr fun j hj => hc j (List.mem_range.mp hj)

lemma execute_arm7 (e : Emulator) (rnd op : Nat) (h : op / 4096 % 16 = 7) :
    execute e op rnd =
      .ok (setReg e (op / 256 % 16)
            ((e.var_registers (op / 256 % 16) + op % 256) % 256), false) := by
  simp only [execute, h]
  norm_num

lemma execute_arm87 (e : Emulator) (rnd op : Nat)
    (h3 : op / 4096 % 16 = 8) (h0 : op % 16 = 7) :
    execute e op rnd =
      .ok (setReg
            (setReg e (op / 256 % 16)
              ((e.var_registers (op / 16 % 16) + 256 -
                  e.var_registers (op / 256 % 16)) % 256))
            0xF
            (if e.var_registers (op / 256 % 16) > e.var_registers (op / 16 % 16)
              then 0 else 1), false) := by
  simp only [execute, h3, h0]
  norm_num

lemma execute_arm2 (e : Emulator) (rnd op : Nat) (h : op / 4096 % 16 = 2) :
    execute e op rnd =
      .ok ({ e with stack := e.pc :: e.stack, pc := op % 4096 }, false) := by
  simp only [execute, h]
  norm_num

lemma execute_armRet (e : Emulator) (rnd : Nat) :
    execute e 0x00EE rnd =
      match e.stack with
      | [] => .error .stackUnderflow
      | a :: rest => .ok ({ e with pc := a, stack := rest }, false) := by
  simp only [execute]
  norm_num

/-! ### Claims -/

/-- Claim C2: for every register value `a` and immediate `nn`, executing
add-immediate (opcode `7xnn`) stores `(a + nn) % 256` in `register[x]`,
wrapping silently on overflow, and does not write any other register — in
particular it has no side effect on the flag register `0xF` (which, as for
every opcode, can change only when it is itself the addressed destination). -/
theorem C2_add_immediate (e : Emulator) (rnd x nn : Nat)
    (hx : x < 16) (hnn : nn < 256) :
    ∃ e', execute e (0x7000 + x * 256 + nn) rnd = .ok (e', false) ∧
      e'.var_registers x = (e.var_registers x + nn) % 256 ∧
      (∀ i, i ≠ x → e'.var_registers i = e.var_registers i) ∧
      (x ≠ 0xF → e'.var_registers 0xF = e.var_registers 0xF) := by
  have h7 : (0x7000 + x * 256 + nn) / 4096 % 16 = 7 := by omega
  have hx' : (0x7000 + x * 256 + nn) / 256 % 16 = x := by omega
  have hnn' : (0x7000 + x * 256 + nn) % 256 = nn := by omega
  refine ⟨setReg e x ((e.var_registers x + nn) % 256), ?_, ?_, ?_, ?_⟩
  · rw [execute_arm7 e rnd _ h7, hx', hnn']
  · simp [setReg]
  · intro i hi
    simp [setReg, hi]
  · intro hxF
    have hne : (0xF : Nat) ≠ x := fun h => hxF h.symm
    simp [setReg, hne]

theorem C2_witness :
    (0 : Nat) < 16 ∧ (2 : Nat) < 256 ∧
    (∃ e', execute (setReg Emulator.new 0 0xFF) (0x7000 + 0 * 256 + 2) 0 = .ok (e', false) ∧
      e'.var_registers 0 = ((setReg Emulator.new 0 0xFF).var_registers 0 + 2) % 256 ∧
      (∀ i, i ≠ 0 → e'.var_registers i = (setReg Emulator.new 0 0xFF).var_registers i) ∧
      ((0 : Nat) ≠ 0xF → e'.var_registers 0xF = (setReg Emulator.new 0 0xFF).var_registers 0xF)) :=
  ⟨by decide, by decide,
    C2_add_immediate (setReg Emulator.new 0 0xFF) 0 0 2 (by decide) (by decide)⟩

/-- Claim C3, counterexample to the universally quantified form: with
destination `x = 0xF` (opcode `0x8F07`, `a = register[0xF] = 5`,
`b = register[0x0] = 3`) the final `register[x]` is the borrow flag `0`, not
`(b - a) mod 256 = 254`: the flag write overwrites the stored difference. -/
theorem C3_counterexample :
    ∃ e', execute (setReg (setReg Emulator.new 0xF 5) 0 3) 0x8F07 0 = .ok (e', false) ∧
      e'.var_registers 0xF = 0 ∧
      ((setReg (setReg Emulator.new 0xF 5) 0 3).var_registers 0x0 + 256 -
        (setReg (setReg Emulator.new 0xF 5) 0 3).var_registers 0xF) % 256 = 254 := by
  refine ⟨_, rfl, rfl, by decide⟩

/-- Claim C3 (amended: destination `x ≠ 0xF`): executing borrow-subtract
(opcode `8xy7`) with `a = register[x]`, `b = register[y]` stores
`(b - a) mod 256` (as bytes: `(b + 256 - a) % 256`) in `register[x]` and sets
the flag register `0xF` to 1 if `b ≥ a` (no borrow) and to 0 otherwise; when
`x = 0xF` the subsequent flag write overwrites the stored difference (claim
C4), so the stored-result part holds only for `x ≠ 0xF`. -/
theorem C3_borrow_subtract (e : Emulator) (rnd x y : Nat)
    (hx : x < 16) (hy : y < 16) (hxF : x ≠ 0xF) :
    ∃ e', execute e (0x8007 + x * 256 + y * 16) rnd = .ok (e', false) ∧
      e'.var_registers x = (e.var_registers y + 256 - e.var_registers x) % 256 ∧
      e'.var_registers 0xF =
        (if e.var_registers y ≥ e.var_registers x then 1 else 0) := by
  have h3 : (0x8007 + x * 256 + y * 16) / 4096 % 16 = 8 := by omega
  have h0 : (0x8007 + x * 256 + y * 16) % 16 = 7 := by omega
  have hx' : (0x8007 + x * 256 + y * 16) / 256 % 16 = x := by omega
  have hy' : (0x8007 + x * 256 + y * 16) / 16 % 16 = y := by omega
  refine ⟨setReg (setReg e x ((e.var_registers y + 256 - e.var_registers x) % 256))
      0xF (if e.var_registers x > e.var_registers y then 0 else 1), ?_, ?_, ?_⟩
  · rw [execute_arm87 e rnd _ h3 h0, hx', hy']
  · simp [setReg, hxF]
  · simp only [setReg, if_pos rfl]
    split_ifs <;> omega

/-- Claim C4: in the flag-writing operations (borrow-subtract `8xy7` and
draw), the flag write happens after the main result.  For `8xy7` with
destination `x = 0xF`: the final value of `register[0xF]` is the borrow flag
computed from the pre-write operand values (in particular the operand
`a = register[0xF]` is read before any write), and the stored difference is
overwritten by it.  For draw: the final `register[0xF]` is determined by the
pre-call display, sprite bytes and coordinate registers (`collisionB` reads
only the pre-call state), each per-pixel collision test seeing the pixel value
before that pixel's toggle. -/
theorem C4_flag_after_result (e : Emulator) (rnd y h : Nat) (hy : y < 16) :
    (∃ e', execute e (0x8F07 + y * 16) rnd = .ok (e', false) ∧
        e'.var_registers 0xF =
          (if e.var_registers 0xF > e.var_registers y then 0 else 1)) ∧
    (∀ e' ch, draw e 0xF y h = .ok (e', ch) →
        e'.var_registers 0xF =
          (if collisionB e 0xF y h = true then 1 else e.var_registers 0xF)) := by
  constructor
  · have h3 : (0x8F07 + y * 16) / 4096 % 16 = 8 := by omega
    have h0 : (0x8F07 + y * 16) % 16 = 7 := by omega
    have hx' : (0x8F07 + y * 16) / 256 % 16 = 0xF := by omega
    have hy' : (0x8F07 + y * 16) / 16 % 16 = y := by omega
    refine ⟨setReg (setReg e 0xF ((e.var_registers y + 256 - e.var_registers 0xF) % 256))
        0xF (if e.var_registers 0xF > e.var_registers y then 0 else 1), ?_, ?_⟩
    · rw [execute_arm87 e rnd _ h3 h0, hx', hy']
    · simp [setReg]
  · intro e' ch hok
    exact draw_flag hok

theorem C4_witness :
    (0 : Nat) < 16 ∧
    ((∃ e', execute Emulator.new (0x8F07 + 0 * 16) 0 = .ok (e', false) ∧
        e'.var_registers 0xF =
          (if Emulator.new.var_registers 0xF > Emulator.new.var_registers 0 then 0 else 1)) ∧
    (∀ e' ch, draw Emulator.new 0xF 0 0 = .ok (e', ch) →
        e'.var_registers 0xF =
          (if collisionB Emulator.new 0xF 0 0 = true then 1
            else Emulator.new.var_registers 0xF))) :=
  ⟨by decide, C4_flag_after_result Emulator.new 0 0 0 (by decide)⟩

/-- Claim C6: a draw call leaves the flag register `0xF` unmodified when no
collision (no lit-to-dark toggle) happens during the call — it is not zeroed
at entry — and sets it to 1 exactly when some toggle turns a previously-lit
pixel off (`collisionB`). -/
theorem C6_draw_flag (e e' : Emulator) (x y h : Nat) (ch : Bool)
    (hok : draw e x y h = .ok (e', ch)) :
    e'.var_registers 0xF =
      (if collisionB e x y h = true then 1 else e.var_registers 0xF) :=
  draw_flag hok

theorem C6_witness :
    draw Emulator.new 0 1 1 = .ok (Emulator.new, false) ∧
    Emulator.new.var_registers 0xF =
      (if collisionB Emulator.new 0 1 1 = true then 1
        else Emulator.new.var_registers 0xF) :=
  ⟨rfl, C6_draw_flag Emulator.new Emulator.new 0 1 1 false rfl⟩

/-- Claim C1, counterexample: sprite rows past the bottom edge are *not*
dropped.  With `register[1] = 28` the draw of an 8-row sprite addresses rows
28..35; at row 32 the display indexing is out of bounds and the draw aborts,
instead of clipping as the claim states. -/
theorem C1_counterexample :
    draw (setReg Emulator.new 1 28) 0 1 8 = .error .indexOutOfBounds := by rfl

/-- Claim C1 (amended): the starting coordinate is wrapped
(`register[x] % 64`, `register[y] % 32`) and sprite pixels past the right
edge (column ≥ 64) are dropped — an ok draw changes the display only inside
the addressed rectangle — but rows are *not* clipped: the draw succeeds iff
every addressed row index `register[y] % 32 + i` is `< 32` (and every sprite
byte address `index_register + i` is `< 4096`); otherwise the display (or
memory) indexing is out of bounds and the run aborts. -/
theorem C1_draw_bounds (e : Emulator) (x y h : Nat) :
    ((∃ r, draw e x y h = .ok r) ↔
      ∀ i < h, e.index_register + i < 4096 ∧
        e.var_registers y % HEIGHT + i < HEIGHT) ∧
    (∀ e' ch, draw e x y h = .ok (e', ch) →
      ∀ r c, ((∀ i < h, r ≠ e.var_registers y % HEIGHT + i) ∨
              (∀ j < 8, c ≠ e.var_registers x % WIDTH + j)) →
        e'.display r c = e.display r c) := by
  refine ⟨draw_ok_iff, ?_⟩
  intro e' ch hok
  exact (draw_frame hok).2.2.1

theorem C1_witness :
    ((∃ r, draw Emulator.new 0 0 1 = .ok r) ↔
      ∀ i < 1, Emulator.new.index_register + i < 4096 ∧
        Emulator.new.var_registers 0 % HEIGHT + i < HEIGHT) ∧
    (∀ e' ch, draw Emulator.new 0 0 1 = .ok (e', ch) →
      ∀ r c, ((∀ i < 1, r ≠ Emulator.new.var_registers 0 % HEIGHT + i) ∨
              (∀ j < 8, c ≠ Emulator.new.var_registers 0 % WIDTH + j)) →
        e'.display r c = Emulator.new.display r c) :=
  C1_draw_bounds Emulator.new 0 0 1

/-- State used to exhibit the draw bug of claim C5: a dark display with the
one-row sprite `0x80` at memory address 0 (`index_register = 0`,
`register[0] = register[1] = 0`). -/
def drawBugState : Emulator :=
  { Emulator.new with memory := fun a => if a = 0 then 0x80 else 0 }

/-- Claim C5 (code bug): drawing the same sprite twice at the same position
does NOT restore the display.  The loop body toggles a pixel whenever the
sprite bit differs from it — i.e. it assigns `pixel := sprite bit` — instead
of XOR-toggling on sprite bit 1.  With sprite byte `0x80` over a dark
display, the first draw lights pixel (0,0) and the second draw leaves it lit
and reports `changed = false`, whereas XOR semantics would toggle it off and
restore the original display. -/
theorem C5_draw_overwrites_not_xor :
    ∃ e1 e2 : Emulator,
      draw drawBugState 0 1 1 = .ok (e1, true) ∧
      e1.display 0 0 = true ∧
      draw e1 0 1 1 = .ok (e2, false) ∧
      e2.display 0 0 = true ∧
      drawBugState.display 0 0 = false := by
  refine ⟨_, _, rfl, rfl, rfl, rfl, rfl⟩

theorem C3_witness :
    (0 : Nat) < 16 ∧ (1 : Nat) < 16 ∧ (0 : Nat) ≠ 0xF ∧
    (∃ e', execute (setReg (setReg Emulator.new 0 5) 1 3)
        (0x8007 + 0 * 256 + 1 * 16) 0 = .ok (e', false) ∧
      e'.var_registers 0 =
        ((setReg (setReg Emulator.new 0 5) 1 3).var_registers 1 + 256 -
          (setReg (setReg Emulator.new 0 5) 1 3).var_registers 0) % 256 ∧
      e'.var_registers 0xF =
        (if (setReg (setReg Emulator.new 0 5) 1 3).var_registers 1 ≥
            (setReg (setReg Emulator.new 0 5) 1 3).var_registers 0 then 1 else 0)) :=
  ⟨by decide, by decide, by decide,
    C3_borrow_subtract (setReg (setReg Emulator.new 0 5) 1 3) 0 0 1
      (by decide) (by decide) (by decide)⟩

lemma execute_current_eq (e : Emulator) (rnd : Nat) (hpc : e.pc + 1 < 4096) :
    execute_current e rnd =
      execute { e with pc := e.pc + 2 }
        (e.memory e.pc * 256 + e.memory (e.pc + 1)) rnd := by
  have h1 : readMem e e.pc = .ok (e.memory e.pc) := by
    simp only [readMem, if_pos (show e.pc < 4096 by omega)]
  have h2 : readMem e (e.pc + 1) = .ok (e.memory (e.pc + 1)) := by
    simp only [readMem, if_pos hpc]
  simp only [execute_current]
  rw [h1, exbind_ok, h2, exbind_ok]

lemma call_step (e : Emulator) (rnd nnn : Nat) (hpc : e.pc + 1 < 4096)
    (hnnn : nnn < 4096)
    (hhi : e.memory e.pc = 0x20 + nnn / 256)
    (hlo : e.memory (e.pc + 1) = nnn % 256) :
    execute_current e rnd =
      .ok ({ e with pc := nnn, stack := (e.pc + 2) :: e.stack }, false) := by
  rw [execute_current_eq e rnd hpc]
  have hop : e.memory e.pc * 256 + e.memory (e.pc + 1) = 0x2000 + nnn := by
    rw [hhi, hlo]; omega
  rw [hop, execute_arm2 _ rnd _ (by omega),
    show (0x2000 + nnn) % 4096 = nnn by omega]

/-- Claim C7: a step reads the two bytes at the current program counter,
combines them big-endian (`memory[pc] * 256 + memory[pc+1]`), and advances
the program counter by 2 *before* dispatching; consequently a call opcode
`2nnn` found at `pc` jumps to the absolute address `nnn` and pushes `pc + 2`
(the address of the next instruction) onto the call stack. -/
theorem C7_fetch_decode (e : Emulator) (rnd : Nat) (hpc : e.pc + 1 < 4096) :
    execute_current e rnd =
      execute { e with pc := e.pc + 2 }
        (e.memory e.pc * 256 + e.memory (e.pc + 1)) rnd ∧
    (∀ nnn, nnn < 4096 → e.memory e.pc = 0x20 + nnn / 256 →
      e.memory (e.pc + 1) = nnn % 256 →
      ∃ e', execute_current e rnd = .ok (e', false) ∧
        e'.pc = nnn ∧ e'.stack = (e.pc + 2) :: e.stack) := by
  refine ⟨execute_current_eq e rnd hpc, ?_⟩
  intro nnn hnnn hhi hlo
  exact ⟨_, call_step e rnd nnn hpc hnnn hhi hlo, rfl, rfl⟩

/-- Memory image used by the C7/C8 witnesses: a `call 0x300` instruction at
`0x200` and a `return` instruction (`0x00EE`) at `0x300`. -/
def callRetState : Emulator :=
  { Emulator.new with memory := fun a =>
      if a = 0x200 then 0x23 else if a = 0x201 then 0x00 else
      if a = 0x300 then 0x00 else if a = 0x301 then 0xEE else 0 }

theorem C7_witness :
    callRetState.pc + 1 < 4096 ∧
    (execute_current callRetState 0 =
      execute { callRetState with pc := callRetState.pc + 2 }
        (callRetState.memory callRetState.pc * 256 +
          callRetState.memory (callRetState.pc + 1)) 0 ∧
    (∀ nnn, nnn < 4096 →
      callRetState.memory callRetState.pc = 0x20 + nnn / 256 →
      callRetState.memory (callRetState.pc + 1) = nnn % 256 →
      ∃ e', execute_current callRetState 0 = .ok (e', false) ∧
        e'.pc = nnn ∧ e'.stack = (callRetState.pc + 2) :: callRetState.stack)) :=
  ⟨by decide, C7_fetch_decode callRetState 0 (by decide)⟩

/-- Claim C8: executing `call nnn` (opcode `2nnn`) and then `return`
(opcode `00EE`) restores the program counter to the address immediately
following the call instruction (`pc + 2`), with the call stack restored to
its prior contents. -/
theorem C8_call_return (e : Emulator) (rnd rnd2 nnn : Nat)
    (hpc : e.pc + 1 < 4096) (hnnn : nnn + 1 < 4096)
    (hcall_hi : e.memory e.pc = 0x20 + nnn / 256)
    (hcall_lo : e.memory (e.pc + 1) = nnn % 256)
    (hret_hi : e.memory nnn = 0x00)
    (hret_lo : e.memory (nnn + 1) = 0xEE) :
    ∃ e1 e2 : Emulator,
      execute_current e rnd = .ok (e1, false) ∧
      execute_current e1 rnd2 = .ok (e2, false) ∧
      e2.pc = e.pc + 2 ∧
      e2.stack = e.stack := by
  refine ⟨{ e with pc := nnn, stack := (e.pc + 2) :: e.stack },
    { e with pc := e.pc + 2 },
    call_step e rnd nnn hpc (by omega) hcall_hi hcall_lo, ?_, rfl, rfl⟩
  rw [execute_current_eq _ rnd2 (by simpa using hnnn)]
  show execute _ (e.memory nnn * 256 + e.memory (nnn + 1)) rnd2 = _
  rw [hret_hi, hret_lo]
  rw [show (0 : Nat) * 256 + 0xEE = 0x00EE by norm_num, execute_armRet]

theorem C8_witness :
    callRetState.pc + 1 < 4096 ∧ (0x300 : Nat) + 1 < 4096 ∧
    callRetState.memory callRetState.pc = 0x20 + 0x300 / 256 ∧
    callRetState.memory (callRetState.pc + 1) = 0x300 % 256 ∧
    callRetState.memory 0x300 = 0x00 ∧
    callRetState.memory (0x300 + 1) = 0xEE ∧
    (∃ e1 e2 : Emulator,
      execute_current callRetState 0 = .ok (e1, false) ∧
      execute_current e1 0 = .ok (e2, false) ∧
      e2.pc = callRetState.pc + 2 ∧
      e2.stack = callRetState.stack) :=
  ⟨by decide, by decide, by decide, by decide, by decide, by decide,
    C8_call_return callRetState 0 0 0x300 (by decide) (by decide)
      (by decide) (by decide) (by decide) (by decide)⟩

/-- States used by the C9 counterexample: the same unimplemented instruction
`0xE000` is fetched at two different program counters. -/
def unsupStateA : Emulator :=
  { Emulator.new with memory := fun a => if a = 0x200 ∨ a = 0x300 then 0xE0 else 0 }

/-- Same memory image as `unsupStateA` but with the program counter at
`0x300` instead of `0x200`. -/
def unsupStateB : Emulator :=
  { unsupStateA with pc := 0x300 }

/-- Claim C9, counterexample to the "reported together with the program
counter" part: two runs hitting the same unimplemented instruction `0xE000`
at different program counters produce literally the same error value — the
surfaced error (the `todo!("{:>4X?}", op)` panic) carries the 16-bit opcode
but cannot convey the program counter. -/
theorem C9_counterexample :
    execute_current unsupStateA 0 = .error (.unsupportedOpcode 0xE000) ∧
    execute_current unsupStateB 0 = .error (.unsupportedOpcode 0xE000) ∧
    unsupStateA.pc ≠ unsupStateB.pc :=
  ⟨rfl, rfl, by decide⟩

/-- Claim C9 (amended): an instruction matching no implemented opcode family
is a fatal error carrying the offending 16-bit value — never a silent no-op —
but the error does not include the program counter (the result is the same
whatever the rest of the state, including `pc`, is). -/
theorem C9_unsupported (e : Emulator) (op rnd : Nat)
    (h : matchesImplemented op = false) :
    execute e op rnd = .error (.unsupportedOpcode op) := by
  have h1 : ¬ (op / 4096 % 16 = 0x0 ∧ op / 256 % 16 = 0x0 ∧
      op / 16 % 16 = 0xE ∧ op % 16 = 0x0) := fun hc => by
    simp [matchesImplemented, hc.1, hc.2.1, hc.2.2.1, hc.2.2.2] at h
  have h2 : ¬ (op / 4096 % 16 = 0x0 ∧ op / 256 % 16 = 0x0 ∧
      op / 16 % 16 = 0xE ∧ op % 16 = 0xE) := fun hc => by
    simp [matchesImplemented, hc.1, hc.2.1, hc.2.2.1, hc.2.2.2] at h
  have h3 : ¬ op / 4096 % 16 = 0x1 := fun hc => by
    simp [matchesImplemented, hc] at h
  have h4 : ¬ op / 4096 % 16 = 0x2 := fun hc => by
    simp [matchesImplemented, hc] at h
  have h5 : ¬ op / 4096 % 16 = 0x3 := fun hc => by
    simp [matchesImplemented, hc] at h
  have h6 : ¬ op / 4096 % 16 = 0x4 := fun hc => by
    simp [matchesImplemented, hc] at h
  have h7 : ¬ op / 4096 % 16 = 0x6 := fun hc => by
    simp [matchesImplemented, hc] at h
  have h8 : ¬ op / 4096 % 16 = 0x7 := fun hc => by
    simp [matchesImplemented, hc] at h
  have h9 : ¬ (op / 4096 % 16 = 0x8 ∧ op % 16 = 0x0) := fun hc => by
    simp [matchesImplemented, hc.1, hc.2] at h
  have h10 : ¬ (op / 4096 % 16 = 0x8 ∧ op % 16 = 0x7) := fun hc => by
    simp [matchesImplemented, hc.1, hc.2] at h
  have h11 : ¬ op / 4096 % 16 = 0xA := fun hc => by
    simp [matchesImplemented, hc] at h
  have h12 : ¬ op / 4096 % 16 = 0xC := fun hc => by
    simp [matchesImplemented, hc] at h
  have h13 : ¬ op / 4096 % 16 = 0xD := fun hc => by
    simp [matchesImplemented, hc] at h
  simp only [execute]
  rw [if_neg h1, if_neg h2, if_neg h3, if_neg h4, if_neg h5, if_neg h6, if_neg h7,
    if_neg h8, if_neg h9, if_neg h10, if_neg h11, if_neg h12, if_neg h13]

theorem C9_witness :
    matchesImplemented 0x5120 = false ∧
    execute Emulator.new 0x5120 0 = .error (.unsupportedOpcode 0x5120) :=
  ⟨by decide, C9_unsupported Emulator.new 0x5120 0 (by decide)⟩

lemma load_rom_aux_spec (rom : List Nat) :
    ∀ (e : Emulator) (i : Nat), 0x200 + i + rom.length ≤ 4096 →
    ∃ e', load_rom_aux e i rom = .ok e' ∧
      (∀ k, k < rom.length → e'.memory (0x200 + i + k) = rom.getD k 0) ∧
      (∀ a, a < 0x200 + i ∨ 0x200 + i + rom.length ≤ a →
        e'.memory a = e.memory a) ∧
      e'.pc = e.pc ∧ e'.index_register = e.index_register ∧
      e'.var_registers = e.var_registers ∧ e'.stack = e.stack ∧
      e'.display = e.display := by
  induction rom with
  | nil =>
      intro e i _
      exact ⟨e, rfl, fun k hk => absurd hk (by simp), fun a _ => rfl,
        rfl, rfl, rfl, rfl, rfl⟩
  | cons b rest ih =>
      intro e i hlen
      simp only [List.length_cons] at hlen
      have hb : 0x200 + i < 4096 := by omega
      set e2 : Emulator :=
        { e with memory := fun j => if j = 0x200 + i then b else e.memory j } with he2
      have hw : writeMem e (0x200 + i) b = .ok e2 := by
        simp only [writeMem, if_pos hb, he2]
      obtain ⟨e', hrun, hwrote, hframe, hpc, hir, hvr, hst, hdp⟩ :=
        ih e2 (i + 1) (by omega)
      refine ⟨e', ?_, ?_, ?_, hpc, hir, hvr, hst, hdp⟩
      · simp only [load_rom_aux]
        rw [hw, exbind_ok]
        exact hrun
      · intro k hk
        simp only [List.length_cons] at hk
        cases k with
        | zero =>
            have hkeep : e'.memory (0x200 + i) = e2.memory (0x200 + i) :=
              hframe (0x200 + i) (Or.inl (by omega))
            have hcell : e2.memory (0x200 + i) = b := by
              simp [he2]
            simpa [hcell] using hkeep
        | succ k =>
            have hrec := hwrote k (by omega)
            have harith : 0x200 + (i + 1) + k = 0x200 + i + (k + 1) := by omega
            rw [harith] at hrec
            simpa using hrec
      · intro a ha
        simp only [List.length_cons] at ha
        have hcond : a < 0x200 + (i + 1) ∨ 0x200 + (i + 1) + rest.length ≤ a := by
          rcases ha with h | h
          · exact Or.inl (by omega)
          · exact Or.inr (by omega)
        have hne : a ≠ 0x200 + i := by
          rcases ha with h | h <;> omega
        rw [hframe a hcond]
        simp [he2, hne]

/-- Claim C10: for a ROM of length `L ≤ 4096 - 0x200`, loading writes the ROM
bytes to memory cells `0x200 .. 0x200 + L` only; every other memory cell, the
program counter, the index register, all variable registers, the call stack
and the display are unchanged. -/
theorem C10_load_rom (e : Emulator) (rom : List Nat)
    (hlen : rom.length ≤ 4096 - 0x200) :
    ∃ e', load_rom e rom = .ok e' ∧
      (∀ k, k < rom.length → e'.memory (0x200 + k) = rom.getD k 0) ∧
      (∀ a, a < 0x200 ∨ 0x200 + rom.length ≤ a → e'.memory a = e.memory a) ∧
      e'.pc = e.pc ∧ e'.index_register = e.index_register ∧
      e'.var_registers = e.var_registers ∧ e'.stack = e.stack ∧
      e'.display = e.display := by
  obtain ⟨e', hrun, hwrote, hframe, hpc, hir, hvr, hst, hdp⟩ :=
    load_rom_aux_spec rom e 0 (by omega)
  refine ⟨e', hrun, ?_, ?_, hpc, hir, hvr, hst, hdp⟩
  · intro k hk
    simpa using hwrote k hk
  · intro a ha
    refine hframe a ?_
    rcases ha with h | h
    · exact Or.inl (by omega)
    · exact Or.inr (by omega)

theorem C10_witness :
    ([171, 205] : List Nat).length ≤ 4096 - 0x200 ∧
    (∃ e', load_rom Emulator.new [171, 205] = .ok e' ∧
      (∀ k, k < ([171, 205] : List Nat).length →
        e'.memory (0x200 + k) = ([171, 205] : List Nat).getD k 0) ∧
      (∀ a, a < 0x200 ∨ 0x200 + ([171, 205] : List Nat).length ≤ a →
        e'.memory a = Emulator.new.memory a) ∧
      e'.pc = Emulator.new.pc ∧ e'.index_register = Emulator.new.index_register ∧
      e'.var_registers = Emulator.new.var_registers ∧
      e'.stack = Emulator.new.stack ∧ e'.display = Emulator.new.display) :=
  ⟨by decide, C10_load_rom Emulator.new [171, 205] (by decide)⟩

end Chip8
